import Mathlib

/-!
Verification of the seismiqb surface / grid core against its specification.

The definitions below are shallow embeddings of the Python source:
  * `Horizon.points_to_matrix` / `Horizon.matrix_to_points`
    (src/seismiqb/src/labels/horizon.py),
  * the crop-location grids (`RegularGrid`, `ExtensionGrid`,
    `compute_potential`, `LocationsPotentialContainer` in src/seismiqb/grids.py),
  * the chunked fault labeler (`Fault.from_mask` in src/seismiqb/src/labels/fault.py),
  * the horizon processing mixin (src/seismiqb/labels/horizon_processing.py).

NumPy arrays are modelled either as total functions with the extents carried
separately, or as lists of rows; machine integers are `Int`/`Nat` (no overflow
is relevant at the sizes involved); Python exceptions are `Except`/`Option`.
-/

namespace Seismiqb

/-- `Horizon.FILL_VALUE`: sentinel depth marking an absent cell in the dense
depth-map storage (src/seismiqb/src/labels/horizon.py, line 87). -/
def FILL_VALUE : Int := -999999

/-- A point record `(axis0, axis1, depth)` of the sparse storage. -/
abbrev Point := Int × Int × Int

/-- One NumPy fancy-assignment write of `points_to_matrix`:
`matrix[p0 - i_min, p1 - x_min] = p2`. -/
def write_point (i_min x_min : Int) (m : Int → Int → Int) (p : Point) :
    Int → Int → Int :=
  fun a b => if a = p.1 - i_min ∧ b = p.2.1 - x_min then p.2.2 else m a b

/-- `Horizon.points_to_matrix(points, i_min, x_min, i_length, x_length)`:
allocate a `(i_length, x_length)` matrix filled with `FILL_VALUE`, then scatter
each point's depth at `(p0 - i_min, p1 - x_min)`.  The matrix is modelled as a
total function; its extent `(i_length, x_length)` is the scan domain used by
`matrix_to_points`.  Writes happen in row order, so on colliding keys the last
point wins, as NumPy fancy assignment behaves. -/
def points_to_matrix (points : List Point) (i_min x_min : Int)
    (_i_length _x_length : Nat) : Int → Int → Int :=
  points.foldl (write_point i_min x_min) (fun _ _ => FILL_VALUE)

/-- `Horizon.matrix_to_points(matrix)`: collect `(i, j, matrix[i, j])` for every
non-fill cell, in NumPy's row-major `np.nonzero` order. -/
def matrix_to_points (m : Int → Int → Int) (i_length x_length : Nat) :
    List Point :=
  (List.range i_length).flatMap (fun (i : Nat) =>
    (List.range x_length).filterMap (fun (j : Nat) =>
      if m (i : Int) (j : Int) ≠ FILL_VALUE
      then some ((i : Int), (j : Int), m (i : Int) (j : Int))
      else none))

/-- The `points` lazy property applied after a matrix-derived state: derived
points are shifted back by `(i_min, x_min, 0)` (horizon.py, line 152). -/
def shift_points (pts : List Point) (i_min x_min : Int) : List Point :=
  pts.map (fun p => (p.1 + i_min, p.2.1 + x_min, p.2.2))

/-- The spatial key `(axis0, axis1)` of a point. -/
def key (p : Point) : Int × Int := (p.1, p.2.1)

theorem foldl_write_point (i_min x_min : Int) (init : Int → Int → Int)
    (points : List Point) (a b : Int) :
    points.foldl (write_point i_min x_min) init a b =
      match points.reverse.find?
          (fun p => decide (a = p.1 - i_min ∧ b = p.2.1 - x_min)) with
      | some p => p.2.2
      | none => init a b := by
  induction points generalizing init with
  | nil => simp
  | cons p t ih =>
      simp only [List.foldl_cons, List.reverse_cons, List.find?_append]
      rw [ih]
      cases hf : t.reverse.find?
          (fun p => decide (a = p.1 - i_min ∧ b = p.2.1 - x_min)) with
      | some q => simp [hf]
      | none =>
          simp only [hf, Option.none_or]
          by_cases h : a = p.1 - i_min ∧ b = p.2.1 - x_min
          · simp [List.find?, h, write_point]
          · simp [List.find?, h, write_point]

theorem mem_matrix_to_points (m : Int → Int → Int) (il xl : Nat) (x : Point) :
    x ∈ matrix_to_points m il xl ↔
      ∃ i < il, ∃ j < xl, m (i : Int) (j : Int) ≠ FILL_VALUE ∧
        x = ((i : Int), (j : Int), m (i : Int) (j : Int)) := by
  unfold matrix_to_points
  simp only [List.mem_flatMap, List.mem_filterMap, List.mem_range]
  constructor
  · rintro ⟨i, hi, j, hj, hx⟩
    split at hx
    next h =>
      injection hx with hx
      exact ⟨i, hi, j, hj, h, hx.symm⟩
    next h => cases hx
  · rintro ⟨i, hi, j, hj, hne, rfl⟩
    exact ⟨i, hi, j, hj, by simp [hne]⟩

theorem nodup_matrix_to_points (m : Int → Int → Int) (il xl : Nat) :
    (matrix_to_points m il xl).Nodup := by
  unfold matrix_to_points
  rw [List.nodup_flatMap]
  constructor
  · intro i _
    apply List.Nodup.filterMap _ (List.nodup_range xl)
    intro a a' b hb hb'
    split at hb
    · split at hb'
      · have h1 : b.2.1 = (a : Int) := by cases hb; rfl
        have h2 : b.2.1 = (a' : Int) := by cases hb'; rfl
        exact Nat.cast_injective (h1 ▸ h2)
      · cases hb'
    · cases hb
  · have hfst : ∀ (i : Nat) (b : Point),
        b ∈ (List.range xl).filterMap (fun (j : Nat) =>
          if m (i : Int) (j : Int) ≠ FILL_VALUE
          then some ((i : Int), (j : Int), m (i : Int) (j : Int))
          else none) → b.1 = (i : Int) := by
      intro i b hb
      rcases List.mem_filterMap.mp hb with ⟨j, _, hj⟩
      split at hj
      · cases hj; rfl
      · cases hj
    refine List.Pairwise.imp_of_mem ?_ (List.pairwise_lt_range il)
    intro i i' hi hi' hlt
    intro b hb hb'
    have e1 := hfst i b hb
    have e2 := hfst i' b hb'
    have : (i : Int) = (i' : Int) := e1 ▸ e2
    have : i = i' := by exact_mod_cast this
    omega

theorem key_injective_of_pairwise {P : List Point}
    (hkeys : P.Pairwise (fun p q => key p ≠ key q)) :
    ∀ p ∈ P, ∀ q ∈ P, key p = key q → p = q := by
  intro p hp q hq hk
  by_contra hne
  have hsymm : Symmetric (fun (p q : Point) => key p ≠ key q) := by
    intro x y h he
    exact h he.symm
  exact (List.Pairwise.forall hsymm hkeys hp hq hne) hk

theorem scatter_eq_of_mem (P : List Point) (i_min x_min : Int) (il xl : Nat)
    (hkeys : P.Pairwise (fun p q => key p ≠ key q))
    {p : Point} (hp : p ∈ P) :
    points_to_matrix P i_min x_min il xl (p.1 - i_min) (p.2.1 - x_min) =
      p.2.2 := by
  unfold points_to_matrix
  rw [foldl_write_point]
  cases hf : P.reverse.find?
      (fun q => decide (p.1 - i_min = q.1 - i_min ∧ p.2.1 - x_min = q.2.1 - x_min)) with
  | some q =>
      have hqmem : q ∈ P := List.mem_reverse.mp (List.mem_of_find?_eq_some hf)
      have hpred := List.find?_some hf
      simp only [decide_eq_true_eq] at hpred
      have hkq : key p = key q := by
        unfold key
        have h1 : p.1 = q.1 := by omega
        have h2 : p.2.1 = q.2.1 := by omega
        rw [h1, h2]
      have := key_injective_of_pairwise hkeys p hp q hqmem hkq
      simp [this]
  | none =>
      exfalso
      have := List.find?_eq_none.mp hf p (List.mem_reverse.mpr hp)
      simp at this

theorem scatter_eq_of_not_mem (P : List Point) (i_min x_min : Int)
    (il xl : Nat) (a b : Int)
    (h : ∀ p ∈ P, ¬(a = p.1 - i_min ∧ b = p.2.1 - x_min)) :
    points_to_matrix P i_min x_min il xl a b = FILL_VALUE := by
  unfold points_to_matrix
  rw [foldl_write_point]
  have : P.reverse.find?
      (fun p => decide (a = p.1 - i_min ∧ b = p.2.1 - x_min)) = none := by
    apply List.find?_eq_none.mpr
    intro p hp
    simpa using h p (List.mem_reverse.mp hp)
  rw [this]

/-- C1: for a point set with pairwise-distinct `(axis0, axis1)` keys, depths
distinct from `FILL_VALUE`, and coordinates inside the bounding box
`(i_min, x_min, i_length, x_length)`, `points_to_matrix` followed by
`matrix_to_points` (with the `(i_min, x_min)` offset undone) reproduces the
point set as a multiset. -/
theorem points_matrix_roundtrip (P : List Point) (i_min x_min : Int)
    (il xl : Nat)
    (hkeys : P.Pairwise (fun p q => key p ≠ key q))
    (hdep : ∀ p ∈ P, p.2.2 ≠ FILL_VALUE)
    (hbox : ∀ p ∈ P, i_min ≤ p.1 ∧ p.1 < i_min + il ∧
        x_min ≤ p.2.1 ∧ p.2.1 < x_min + xl) :
    (shift_points
        (matrix_to_points (points_to_matrix P i_min x_min il xl) il xl)
        i_min x_min).Perm P := by
  set m := points_to_matrix P i_min x_min il xl with hm
  have hmem : ∀ x, x ∈ shift_points (matrix_to_points m il xl) i_min x_min ↔
      x ∈ P := by
    intro x
    unfold shift_points
    simp only [List.mem_map]
    constructor
    · rintro ⟨y, hy, rfl⟩
      rcases (mem_matrix_to_points m il xl y).mp hy with ⟨i, hi, j, hj, hne, rfl⟩
      by_cases hex : ∃ p ∈ P, (i : Int) = p.1 - i_min ∧ (j : Int) = p.2.1 - x_min
      · rcases hex with ⟨p, hp, h1, h2⟩
        have : m (i : Int) (j : Int) = p.2.2 := by
          rw [hm, h1, h2]
          exact scatter_eq_of_mem P i_min x_min il xl hkeys hp
        simp only [this]
        have : ((i : Int) + i_min, (j : Int) + x_min, p.2.2) = p := by
          have hp1 : (i : Int) + i_min = p.1 := by omega
          have hp2 : (j : Int) + x_min = p.2.1 := by omega
          rw [hp1, hp2]
        rw [this]
        exact hp
      · exfalso
        apply hne
        rw [hm]
        apply scatter_eq_of_not_mem
        intro p hp hc
        exact hex ⟨p, hp, hc.1, hc.2⟩
    · intro hx
      obtain ⟨hb1, hb2, hb3, hb4⟩ := hbox x hx
      refine ⟨((x.1 - i_min).toNat, (x.2.1 - x_min).toNat, x.2.2), ?_, ?_⟩
      · apply (mem_matrix_to_points m il xl _).mpr
        have e1 : (((x.1 - i_min).toNat : Nat) : Int) = x.1 - i_min := by omega
        have e2 : (((x.2.1 - x_min).toNat : Nat) : Int) = x.2.1 - x_min := by
          omega
        have hv : m ((x.1 - i_min).toNat : Int) ((x.2.1 - x_min).toNat : Int) =
            x.2.2 := by
          rw [e1, e2, hm]
          exact scatter_eq_of_mem P i_min x_min il xl hkeys hx
        refine ⟨(x.1 - i_min).toNat, by omega, (x.2.1 - x_min).toNat, by omega,
          ?_, ?_⟩
        · rw [hv]; exact hdep x hx
        · rw [hv]
      · have e1 : (((x.1 - i_min).toNat : Nat) : Int) + i_min = x.1 := by omega
        have e2 : (((x.2.1 - x_min).toNat : Nat) : Int) + x_min = x.2.1 := by
          omega
        simp only [e1, e2]
  have hnd1 : (shift_points (matrix_to_points m il xl) i_min x_min).Nodup := by
    unfold shift_points
    apply List.Nodup.map _ (nodup_matrix_to_points m il xl)
    intro p q h
    have h1 := congrArg Prod.fst h
    have h2 := congrArg (fun r => r.2.1) h
    have h3 := congrArg (fun r => r.2.2) h
    simp only at h1 h2 h3
    have : p.1 = q.1 := by omega
    have : p.2.1 = q.2.1 := by omega
    ext
    · omega
    · omega
    · exact h3
  have hnd2 : P.Nodup := by
    apply List.Pairwise.imp _ hkeys
    intro p q hk
    intro he
    exact hk (he ▸ rfl)
  exact (List.perm_ext_iff_of_nodup hnd1 hnd2).mpr hmem

/-- Witness for C1 at a concrete two-point set inside the box
`(i_min, x_min, i_length, x_length) = (1, 1, 3, 3)`. -/
theorem points_matrix_roundtrip_witness :
    (shift_points
        (matrix_to_points (points_to_matrix [(2, 3, 5), (1, 1, 7)] 1 1 3 3) 3 3)
        1 1).Perm [(2, 3, 5), (1, 1, 7)] :=
  points_matrix_roundtrip [(2, 3, 5), (1, 1, 7)] 1 1 3 3
    (by decide) (by decide) (by decide)

/-! ### Crop-location grids (src/seismiqb/grids.py) -/

/-- `np.arange(start, stop, step)` for a positive `step`: the elements
`start + step * k` for `k < ⌈(stop - start) / step⌉`. -/
def np_arange (start stop step : Int) : List Int :=
  (List.range ((stop - start + step - 1).toNat / step.toNat)).map
    (fun (k : Nat) => start + step * (k : Int))

/-- `np.clip(x, lo, hi)`: the lower bound is applied first, then the upper. -/
def np_clip (x lo hi : Int) : Int := min (max x lo) hi

/-- Sorted deduplicating insertion (helper for `np.unique`). -/
def insert_sorted (x : Int) : List Int → List Int
  | [] => [x]
  | y :: ys =>
      if x < y then x :: y :: ys
      else if x = y then y :: ys
      else y :: insert_sorted x ys

/-- `np.unique`: the sorted list of distinct values. -/
def np_unique (l : List Int) : List Int := l.foldr insert_sorted []

/-- `RegularGrid._arange(start, stop, stride, limit)` (grids.py, lines
316-320): `np.sort(np.unique(np.clip(np.arange(start, stop, stride), 0,
limit)))`; sorting after `np.unique` is the identity. -/
def regular_arange (start stop stride limit : Int) : List Int :=
  np_unique ((np_arange start stop stride).map (fun g => np_clip g 0 limit))

/-- The volume-geometry data consumed by the grids: spatial/depth extents and
the dead-trace mask (`True` = dead trace). -/
structure FieldData where
  n0 : Nat
  n1 : Nat
  n2 : Nat
  zero_traces : Nat → Nat → Bool

/-- Number of `True` cells of `f` in the rectangle of rows `[r0, r1)` and
columns `[c0, c1)`. -/
def rect_sum (f : Nat → Nat → Bool) (r0 r1 c0 c1 : Nat) : Nat :=
  ((List.range (r1 - r0)).map (fun di =>
    ((List.range (c1 - c0)).map (fun dx =>
      if f (r0 + di) (c0 + dx) then 1 else 0)).sum)).sum

/-- The clamped extent of the Python slice `[start : start + len)` of an axis
of size `n` (faithful for `start ≥ -n`, and all grid starts are clipped to be
non-negative). -/
def slice_lo (start : Int) (n : Nat) : Nat := min start.toNat n

/-- Upper end of the clamped slice `[start : stop)` of an axis of size `n`. -/
def slice_hi (stop : Int) (n : Nat) : Nat := min stop.toNat n

/-- A crop location record
`(field_id, label_id, orientation, i_start, x_start, h_start, i_stop, x_stop,
h_stop)` (grids.py, lines 345-353). -/
structure CropLoc where
  field_id : Int
  label_id : Int
  orientation : Int
  i_start : Int
  x_start : Int
  h_start : Int
  i_stop : Int
  x_stop : Int
  h_stop : Int
deriving DecidableEq, Repr

/-- `RegularGrid._make_locations` (grids.py, lines 322-353): build the three
axis grids with `_arange`, keep each `(i, x)` pair whose crop footprint in the
dead-trace mask has strictly more than `threshold` live traces, and emit one
location per depth start with `stop = start + crop_shape`. -/
def regular_make_locations (fld : FieldData)
    (r0 r1 r2 : Int × Int) (strides : Int × Int × Int) (c0 c1 c2 : Nat)
    (threshold : Int) (field_id label_id orientation : Int) : List CropLoc :=
  let i_grid := regular_arange r0.1 r0.2 strides.1 ((fld.n0 : Int) - c0)
  let x_grid := regular_arange r1.1 r1.2 strides.2.1 ((fld.n1 : Int) - c1)
  let h_grid := regular_arange r2.1 r2.2 strides.2.2 ((fld.n2 : Int) - c2)
  i_grid.flatMap (fun i =>
    x_grid.flatMap (fun x =>
      let ilo := slice_lo i fld.n0
      let ihi := slice_hi (i + c0) fld.n0
      let xlo := slice_lo x fld.n1
      let xhi := slice_hi (x + c1) fld.n1
      let size : Int := ((ihi - ilo) * (xhi - xlo) : Nat)
      let dead : Int := (rect_sum fld.zero_traces ilo ihi xlo xhi : Nat)
      if size - dead > threshold then
        h_grid.map (fun h =>
          ⟨field_id, label_id, orientation, i, x, h,
            i + c0, x + c1, h + c2⟩)
      else []))

/-- Number of stride policies supplied to `RegularGrid.__init__`
(`(strides is not None) + (overlap is not None) + (overlap_factor is not
None)`, grids.py, line 288). -/
def stride_policy_count (strides overlap overlap_factor :
    Option (Int × Int × Int)) : Nat :=
  (if strides.isSome then 1 else 0) + (if overlap.isSome then 1 else 0) +
    (if overlap_factor.isSome then 1 else 0)

/-- `RegularGrid.__init__` stride resolution (grids.py, lines 288-298): more
than one of `strides` / `overlap` / `overlap_factor` is a `ValueError`;
otherwise strides default to `crop_shape`, to `crop_shape - overlap`, or to
`max 1 (crop_shape // overlap_factor)`. -/
def resolve_strides (crop : Int × Int × Int)
    (strides overlap overlap_factor : Option (Int × Int × Int)) :
    Except String (Int × Int × Int) :=
  if stride_policy_count strides overlap overlap_factor > 1 then
    .error "Only one of `strides`, `overlap` or `overlap_factor` should be specified!"
  else
    match strides, overlap, overlap_factor with
    | some s, _, _ => .ok s
    | none, some o, _ => .ok (crop.1 - o.1, crop.2.1 - o.2.1, crop.2.2 - o.2.2)
    | none, none, some f =>
        .ok (max 1 (crop.1 / f.1), max 1 (crop.2.1 / f.2.1),
          max 1 (crop.2.2 / f.2.2))
    | none, none, none => .ok crop

/-- `RegularGrid` construction: the stride-policy check happens in `__init__`
before `super().__init__` triggers `_make_locations`, so a conflicting
configuration errors out before any location is generated. -/
def regular_grid_init (fld : FieldData) (r0 r1 r2 : Int × Int)
    (crop : Int × Int × Int) (c0 c1 c2 : Nat)
    (strides overlap overlap_factor : Option (Int × Int × Int))
    (threshold : Int) (field_id label_id orientation : Int) :
    Except String (List CropLoc) := do
  let s ← resolve_strides crop strides overlap overlap_factor
  pure (regular_make_locations fld r0 r1 r2 s c0 c1 c2 threshold
    field_id label_id orientation)

/-- `ExtensionGrid.__init__` mode resolution (grids.py, lines 495-506):
the `best_*` modes use all four directions, a single direction name uses just
itself, `vertical`/`horizontal` use the matching pairs, anything else is a
`ValueError`. -/
def extension_grid_directions (mode : String) : Except String (List String) :=
  if mode = "best_for_all" ∨ mode = "best_for_each" ∨
      mode = "best_for_each_independent" then
    .ok ["up", "down", "left", "right"]
  else if mode = "up" ∨ mode = "down" ∨ mode = "left" ∨ mode = "right" then
    .ok [mode]
  else if mode = "vertical" then
    .ok ["up", "down"]
  else if mode = "horizontal" then
    .ok ["left", "right"]
  else
    .error "Provided wrong `mode` argument, for possible options look at the docstring."

/-- C9: supplying more than one of `strides` / `overlap` / `overlap_factor`
to `RegularGrid` raises a configuration error immediately, before any
location is generated (for every field, range, crop and threshold); and an
`ExtensionGrid` mode outside the recognized set raises a configuration error
immediately. -/
theorem grid_configuration_errors :
    (∀ (fld : FieldData) (r0 r1 r2 : Int × Int) (crop : Int × Int × Int)
        (c0 c1 c2 : Nat)
        (strides overlap overlap_factor : Option (Int × Int × Int))
        (threshold : Int) (field_id label_id orientation : Int),
      stride_policy_count strides overlap overlap_factor > 1 →
      regular_grid_init fld r0 r1 r2 crop c0 c1 c2 strides overlap
          overlap_factor threshold field_id label_id orientation =
        .error "Only one of `strides`, `overlap` or `overlap_factor` should be specified!") ∧
    (∀ mode : String,
      mode ∉ ["best_for_all", "best_for_each", "best_for_each_independent",
        "up", "down", "left", "right", "vertical", "horizontal"] →
      extension_grid_directions mode =
        .error "Provided wrong `mode` argument, for possible options look at the docstring.") := by
  constructor
  · intro fld r0 r1 r2 crop c0 c1 c2 strides overlap overlap_factor
      threshold field_id label_id orientation h
    unfold regular_grid_init resolve_strides
    rw [if_pos h]
    rfl
  · intro mode h
    simp only [List.mem_cons, List.not_mem_nil, or_false] at h
    push_neg at h
    obtain ⟨h1, h2, h3, h4, h5, h6, h7, h8, h9⟩ := h
    unfold extension_grid_directions
    rw [if_neg (by tauto), if_neg (by tauto), if_neg h8, if_neg h9]

/-- Witness for C9: `strides` and `overlap` both supplied, and the
unrecognized mode string `"bogus"`. -/
theorem grid_configuration_errors_witness :
    regular_grid_init ⟨4, 4, 4, fun _ _ => false⟩ (0, 4) (0, 4) (0, 4)
        (2, 2, 2) 2 2 2 (some (2, 2, 2)) (some (1, 1, 1)) none 0 (-1) (-1) 0 =
      .error "Only one of `strides`, `overlap` or `overlap_factor` should be specified!" ∧
    extension_grid_directions "bogus" =
      .error "Provided wrong `mode` argument, for possible options look at the docstring." :=
  ⟨grid_configuration_errors.1 ⟨4, 4, 4, fun _ _ => false⟩ (0, 4) (0, 4) (0, 4)
      (2, 2, 2) 2 2 2 (some (2, 2, 2)) (some (1, 1, 1)) none 0 (-1) (-1) 0
      (by decide),
    grid_configuration_errors.2 "bogus" (by decide)⟩

theorem mem_insert_sorted (x y : Int) (l : List Int) :
    y ∈ insert_sorted x l ↔ y = x ∨ y ∈ l := by
  induction l with
  | nil => simp [insert_sorted]
  | cons a t ih =>
      unfold insert_sorted
      by_cases h1 : x < a
      · simp [h1]
      · by_cases h2 : x = a
        · subst h2
          simp [h1]
        · simp only [h1, h2, if_false, List.mem_cons, ih]
          tauto

theorem mem_np_unique (x : Int) (l : List Int) :
    x ∈ np_unique l ↔ x ∈ l := by
  induction l with
  | nil => simp [np_unique]
  | cons a t ih =>
      unfold np_unique at ih ⊢
      simp only [List.foldr_cons, mem_insert_sorted, ih, List.mem_cons]

theorem mem_regular_arange (start stop stride limit g : Int)
    (hlim : 0 ≤ limit) (hg : g ∈ regular_arange start stop stride limit) :
    0 ≤ g ∧ g ≤ limit := by
  unfold regular_arange at hg
  rw [mem_np_unique] at hg
  rcases List.mem_map.mp hg with ⟨y, _, rfl⟩
  unfold np_clip
  omega

/-- C7: every location emitted by `RegularGrid._make_locations` has
non-negative starts and stops within the volume extent on every axis, as long
as the crop shape fits inside the volume. -/
theorem regular_grid_clipping (fld : FieldData)
    (r0 r1 r2 : Int × Int) (strides : Int × Int × Int) (c0 c1 c2 : Nat)
    (threshold : Int) (field_id label_id orientation : Int)
    (hc0 : c0 ≤ fld.n0) (hc1 : c1 ≤ fld.n1) (hc2 : c2 ≤ fld.n2) :
    ∀ loc ∈ regular_make_locations fld r0 r1 r2 strides c0 c1 c2
        threshold field_id label_id orientation,
      (0 ≤ loc.i_start ∧ loc.i_stop ≤ fld.n0) ∧
      (0 ≤ loc.x_start ∧ loc.x_stop ≤ fld.n1) ∧
      (0 ≤ loc.h_start ∧ loc.h_stop ≤ fld.n2) := by
  intro loc hloc
  unfold regular_make_locations at hloc
  simp only [List.mem_flatMap] at hloc
  rcases hloc with ⟨i, hi, x, hx, hloc⟩
  split at hloc
  · rcases List.mem_map.mp hloc with ⟨h, hh, rfl⟩
    have hbi := mem_regular_arange _ _ _ _ i (by omega) hi
    have hbx := mem_regular_arange _ _ _ _ x (by omega) hx
    have hbh := mem_regular_arange _ _ _ _ h (by omega) hh
    simp only
    omega
  · cases hloc

/-- Spatial `(axis0, axis1)` start pairs of a location list. -/
def spatial_starts (locs : List CropLoc) : List (Int × Int) :=
  locs.map (fun l => (l.i_start, l.x_start))

theorem insert_sorted_forall_lt (x : Int) (l : List Int)
    (h : ∀ y ∈ l, x < y) : insert_sorted x l = x :: l := by
  cases l with
  | nil => rfl
  | cons a t =>
      unfold insert_sorted
      rw [if_pos (h a (List.mem_cons_self a t))]

theorem np_unique_sorted (l : List Int) (h : l.Pairwise (· < ·)) :
    np_unique l = l := by
  induction l with
  | nil => rfl
  | cons a t ih =>
      unfold np_unique at ih ⊢
      rw [List.foldr_cons, ih (List.Pairwise.of_cons h)]
      exact insert_sorted_forall_lt a t
        (fun y hy => List.rel_of_pairwise_cons h hy)

theorem regular_arange_dvd (n c : Nat) (hc : 1 ≤ c) (hcn : c ≤ n)
    (hd : c ∣ n) :
    regular_arange 0 (n : Int) (c : Int) ((n : Int) - c) =
      (List.range (n / c)).map (fun (k : Nat) => ((c * k : Nat) : Int)) := by
  obtain ⟨q, rfl⟩ := hd
  have hq : c * q / c = q := by
    rw [Nat.mul_div_cancel_left q (by omega : 0 < c)]
  rw [hq]
  have hcount : (((c * q : Nat) : Int) - 0 + c - 1).toNat / (c : Int).toNat
      = q := by
    have e0 : (((c * q : Nat) : Int) - 0 + c - 1).toNat = c * q + (c - 1) := by
      push_cast
      omega
    have e1 : (c : Int).toNat = c := by omega
    rw [e0, e1, show c * q + (c - 1) = (c - 1) + c * q by omega]
    rw [Nat.add_mul_div_left _ _ (by omega : 0 < c),
      Nat.div_eq_of_lt (by omega)]
    omega
  unfold regular_arange np_arange
  rw [hcount, List.map_map]
  have hmap : (List.range q).map
        ((fun g => np_clip g 0 ((c * q : Nat) - (c : Int))) ∘
          (fun (k : Nat) => (0 : Int) + (c : Int) * (k : Int))) =
      (List.range q).map (fun (k : Nat) => ((c * k : Nat) : Int)) := by
    apply List.map_congr_left
    intro k hk
    have hk' : k < q := List.mem_range.mp hk
    have hle : c * (k + 1) ≤ c * q :=
      Nat.mul_le_mul_left c (by omega : k + 1 ≤ q)
    rw [Nat.mul_succ] at hle
    simp only [Function.comp]
    unfold np_clip
    push_cast
    omega
  rw [hmap]
  apply np_unique_sorted
  rw [List.pairwise_map]
  apply List.Pairwise.imp_of_mem _ (List.pairwise_lt_range q)
  intro k k' _ _ hlt
  have : c * k < c * k' := mul_lt_mul_of_pos_left hlt (by omega : 0 < c)
  exact_mod_cast this

theorem rect_sum_false (r0 r1 c0 c1 : Nat) :
    rect_sum (fun _ _ => false) r0 r1 c0 c1 = 0 := by
  unfold rect_sum
  simp

theorem band_unique {c t k k' : Nat} (h1 : c * k ≤ t) (h2 : t < c * k + c)
    (h3 : c * k' ≤ t) (h4 : t < c * k' + c) : k = k' := by
  rcases Nat.lt_trichotomy k k' with h | h | h
  · exfalso
    have := Nat.mul_le_mul_left c (show k + 1 ≤ k' by omega)
    rw [Nat.mul_succ] at this
    omega
  · exact h
  · exfalso
    have := Nat.mul_le_mul_left c (show k' + 1 ≤ k by omega)
    rw [Nat.mul_succ] at this
    omega

theorem zero_mem_regular_arange (n c : Nat) (hc : 1 ≤ c) (hcn : c ≤ n) :
    (0 : Int) ∈ regular_arange 0 (n : Int) (c : Int) ((n : Int) - c) := by
  unfold regular_arange
  rw [mem_np_unique]
  apply List.mem_map.mpr
  refine ⟨0, ?_, ?_⟩
  · unfold np_arange
    apply List.mem_map.mpr
    refine ⟨0, ?_, by simp⟩
    apply List.mem_range.mpr
    have e0 : ((n : Int) - 0 + c - 1).toNat = n + c - 1 := by omega
    have e1 : ((c : Int)).toNat = c := by omega
    rw [e0, e1]
    have : 1 ≤ (n + c - 1) / c := (Nat.one_le_div_iff (by omega)).mpr (by omega)
    omega
  · unfold np_clip
    omega

theorem mem_spatial_tiling (n0 n1 n2 c0 c1 c2 : Nat) (fid lid : Int)
    (hc0 : 1 ≤ c0) (hn0 : c0 ≤ n0) (hd0 : c0 ∣ n0)
    (hc1 : 1 ≤ c1) (hn1 : c1 ≤ n1) (hd1 : c1 ∣ n1)
    (hc2 : 1 ≤ c2) (hn2 : c2 ≤ n2) (p : Int × Int) :
    p ∈ spatial_starts (regular_make_locations ⟨n0, n1, n2, fun _ _ => false⟩
        (0, (n0 : Int)) (0, (n1 : Int)) (0, (n2 : Int))
        ((c0 : Int), (c1 : Int), (c2 : Int)) c0 c1 c2 0 fid lid 0) ↔
      (∃ k < n0 / c0, p.1 = ((c0 * k : Nat) : Int)) ∧
      (∃ k < n1 / c1, p.2 = ((c1 * k : Nat) : Int)) := by
  unfold spatial_starts regular_make_locations
  rw [regular_arange_dvd n0 c0 hc0 hn0 hd0,
    regular_arange_dvd n1 c1 hc1 hn1 hd1]
  simp only [List.map_flatMap, List.mem_flatMap, List.mem_map, List.mem_range]
  constructor
  · rintro ⟨i, ⟨k, hk, rfl⟩, hx⟩
    rcases hx with ⟨x, ⟨k', hk', rfl⟩, hp⟩
    split at hp
    · rcases hp with ⟨l, hl, rfl⟩
      rcases List.mem_map.mp hl with ⟨h, hh, rfl⟩
      exact ⟨⟨k, hk, rfl⟩, ⟨k', hk', rfl⟩⟩
    · simp at hp
  · rintro ⟨⟨k, hk, hp1⟩, ⟨k', hk', hp2⟩⟩
    refine ⟨((c0 * k : Nat) : Int), ⟨k, hk, rfl⟩,
      ((c1 * k' : Nat) : Int), ⟨k', hk', rfl⟩, ?_⟩
    have hfit0 : c0 * k + c0 ≤ n0 := by
      have := Nat.mul_le_mul_left c0 (show k + 1 ≤ n0 / c0 by omega)
      rw [Nat.mul_succ] at this
      calc c0 * k + c0 ≤ c0 * (n0 / c0) := this
        _ ≤ n0 := Nat.mul_div_le n0 c0
    have hfit1 : c1 * k' + c1 ≤ n1 := by
      have := Nat.mul_le_mul_left c1 (show k' + 1 ≤ n1 / c1 by omega)
      rw [Nat.mul_succ] at this
      calc c1 * k' + c1 ≤ c1 * (n1 / c1) := this
        _ ≤ n1 := Nat.mul_div_le n1 c1
    have hcond : (((slice_hi (((c0 * k : Nat) : Int) + (c0 : Int)) n0 -
          slice_lo ((c0 * k : Nat) : Int) n0) *
          (slice_hi (((c1 * k' : Nat) : Int) + (c1 : Int)) n1 -
          slice_lo ((c1 * k' : Nat) : Int) n1) : Nat) : Int) -
        ((rect_sum (fun _ _ => false)
            (slice_lo ((c0 * k : Nat) : Int) n0)
            (slice_hi (((c0 * k : Nat) : Int) + (c0 : Int)) n0)
            (slice_lo ((c1 * k' : Nat) : Int) n1)
            (slice_hi (((c1 * k' : Nat) : Int) + (c1 : Int)) n1) : Nat) : Int)
        > 0 := by
      rw [rect_sum_false]
      unfold slice_lo slice_hi
      have e0 : (((c0 * k : Nat) : Int)).toNat = c0 * k := by omega
      have e1 : (((c0 * k : Nat) : Int) + (c0 : Int)).toNat = c0 * k + c0 := by
        omega
      have e2 : (((c1 * k' : Nat) : Int)).toNat = c1 * k' := by omega
      have e3 : (((c1 * k' : Nat) : Int) + (c1 : Int)).toNat
          = c1 * k' + c1 := by omega
      rw [e0, e1, e2, e3]
      rw [min_eq_left (by omega), min_eq_left (by omega),
        min_eq_left (by omega), min_eq_left (by omega)]
      have : 0 < c0 * c1 := Nat.mul_pos (by omega) (by omega)
      have e4 : c0 * k + c0 - c0 * k = c0 := by omega
      have e5 : c1 * k' + c1 - c1 * k' = c1 := by omega
      rw [e4, e5]
      omega
    rw [if_pos hcond]
    exact ⟨_, List.mem_map.mpr ⟨(0 : Int),
        zero_mem_regular_arange n2 c2 hc2 hn2, rfl⟩,
      by rw [Prod.ext_iff]; exact ⟨hp1.symm, hp2.symm⟩⟩

/-- C5 (counterexample): with `threshold = 0` and `strides = crop_shape`, an
all-alive volume of extent 3 on axis0 and a crop of extent 2 produce the
clipped starts `[0, 1]`, whose footprints `[0, 2)` and `[1, 3)` overlap at
`axis0 = 1` — so the emitted footprints do not tile the range without
axis0/axis1 overlap. -/
theorem regular_grid_tiling_cex :
    ((0, 0) ∈ spatial_starts (regular_make_locations ⟨3, 2, 1, fun _ _ => false⟩
        (0, 3) (0, 2) (0, 1) (2, 2, 1) 2 2 1 0 (-1) (-1) 0) ∧
     (1, 0) ∈ spatial_starts (regular_make_locations ⟨3, 2, 1, fun _ _ => false⟩
        (0, 3) (0, 2) (0, 1) (2, 2, 1) 2 2 1 0 (-1) (-1) 0)) ∧
    ¬ ∃! p : Int × Int,
        p ∈ spatial_starts (regular_make_locations ⟨3, 2, 1, fun _ _ => false⟩
            (0, 3) (0, 2) (0, 1) (2, 2, 1) 2 2 1 0 (-1) (-1) 0) ∧
        p.1 ≤ 1 ∧ (1 : Int) < p.1 + 2 ∧ p.2 ≤ 0 ∧ (0 : Int) < p.2 + 2 := by
  refine ⟨⟨by decide, by decide⟩, ?_⟩
  rintro ⟨p, _, hu⟩
  have h1 := hu (0, 0) ⟨by decide, by decide, by decide, by decide, by decide⟩
  have h2 := hu (1, 0) ⟨by decide, by decide, by decide, by decide, by decide⟩
  rw [← h1] at h2
  cases h2

/-- C5 (amended): for a RegularGrid with `threshold = 0`, `strides =
crop_shape`, ranges spanning the full all-alive volume, and crop extents that
divide the volume extents on axis0/axis1, the emitted crop footprints tile
`[0, n0) × [0, n1)` exactly once; in particular the (50, 60, 40) volume with
crop (10, 10, 40) yields exactly 5 × 6 = 30 locations. -/
theorem regular_grid_tiling (n0 n1 n2 c0 c1 c2 : Nat) (fid lid : Int)
    (hc0 : 1 ≤ c0) (hn0 : c0 ≤ n0) (hd0 : c0 ∣ n0)
    (hc1 : 1 ≤ c1) (hn1 : c1 ≤ n1) (hd1 : c1 ∣ n1)
    (hc2 : 1 ≤ c2) (hn2 : c2 ≤ n2) :
    (∀ t0 t1 : Int, 0 ≤ t0 → t0 < n0 → 0 ≤ t1 → t1 < n1 →
      ∃! p : Int × Int,
        p ∈ spatial_starts (regular_make_locations ⟨n0, n1, n2, fun _ _ => false⟩
            (0, (n0 : Int)) (0, (n1 : Int)) (0, (n2 : Int))
            ((c0 : Int), (c1 : Int), (c2 : Int)) c0 c1 c2 0 fid lid 0) ∧
        p.1 ≤ t0 ∧ t0 < p.1 + c0 ∧ p.2 ≤ t1 ∧ t1 < p.2 + c1) ∧
    (regular_make_locations ⟨50, 60, 40, fun _ _ => false⟩ (0, 50) (0, 60)
        (0, 40) (10, 10, 40) 10 10 40 0 (-1) (-1) 0).length = 30 := by
  constructor
  · intro t0 t1 ht0 ht0' ht1 ht1'
    have hm0 := Nat.div_add_mod t0.toNat c0
    have hr0 := Nat.mod_lt t0.toNat (show 0 < c0 by omega)
    have hm1 := Nat.div_add_mod t1.toNat c1
    have hr1 := Nat.mod_lt t1.toNat (show 0 < c1 by omega)
    have hk0 : t0.toNat / c0 < n0 / c0 :=
      Nat.div_lt_div_of_lt_of_dvd hd0 (by omega)
    have hk1 : t1.toNat / c1 < n1 / c1 :=
      Nat.div_lt_div_of_lt_of_dvd hd1 (by omega)
    have e0 : (t0.toNat : Int) = t0 := Int.toNat_of_nonneg ht0
    have e1 : (t1.toNat : Int) = t1 := Int.toNat_of_nonneg ht1
    refine ⟨(((c0 * (t0.toNat / c0) : Nat) : Int),
        ((c1 * (t1.toNat / c1) : Nat) : Int)), ⟨?_, ?_, ?_, ?_, ?_⟩, ?_⟩
    · exact (mem_spatial_tiling n0 n1 n2 c0 c1 c2 fid lid hc0 hn0 hd0
        hc1 hn1 hd1 hc2 hn2 _).mpr
        ⟨⟨t0.toNat / c0, hk0, rfl⟩, ⟨t1.toNat / c1, hk1, rfl⟩⟩
    · simp only
      rw [← e0]
      exact_mod_cast Nat.mul_div_le t0.toNat c0
    · simp only
      rw [← e0]
      exact_mod_cast (show t0.toNat < c0 * (t0.toNat / c0) + c0 by omega)
    · simp only
      rw [← e1]
      exact_mod_cast Nat.mul_div_le t1.toNat c1
    · simp only
      rw [← e1]
      exact_mod_cast (show t1.toNat < c1 * (t1.toNat / c1) + c1 by omega)
    · rintro ⟨q0, q1⟩ ⟨hqmem, hb1, hb2, hb3, hb4⟩
      rcases (mem_spatial_tiling n0 n1 n2 c0 c1 c2 fid lid hc0 hn0 hd0
          hc1 hn1 hd1 hc2 hn2 _).mp hqmem with ⟨⟨k, hk, he0'⟩, ⟨k', hk', he1'⟩⟩
      simp only at hb1 hb2 hb3 hb4 he0' he1'
      subst he0'
      subst he1'
      rw [← e0] at hb1 hb2
      rw [← e1] at hb3 hb4
      have hb1' : c0 * k ≤ t0.toNat := by exact_mod_cast hb1
      have hb2' : t0.toNat < c0 * k + c0 := by exact_mod_cast hb2
      have hb3' : c1 * k' ≤ t1.toNat := by exact_mod_cast hb3
      have hb4' : t1.toNat < c1 * k' + c1 := by exact_mod_cast hb4
      have hkk : k = t0.toNat / c0 :=
        band_unique hb1' hb2' (Nat.mul_div_le t0.toNat c0)
          (by omega)
      have hkk' : k' = t1.toNat / c1 :=
        band_unique hb3' hb4' (Nat.mul_div_le t1.toNat c1)
          (by omega)
      rw [Prod.ext_iff]
      subst hkk
      subst hkk'
      exact ⟨rfl, rfl⟩
  · decide

/-- Witness for the amended C5 tiling at the concrete instance
`n = (4, 4, 5)`, `crop = (2, 2, 2)` — axis0/axis1 divisible, depth axis not —
at cell `(t0, t1) = (3, 1)`. -/
theorem regular_grid_tiling_witness :
    (∃! p : Int × Int,
      p ∈ spatial_starts (regular_make_locations ⟨4, 4, 5, fun _ _ => false⟩
          (0, 4) (0, 4) (0, 5) (2, 2, 2) 2 2 2 0 (-1) (-1) 0) ∧
      p.1 ≤ 3 ∧ (3 : Int) < p.1 + 2 ∧ p.2 ≤ 1 ∧ (1 : Int) < p.2 + 2) ∧
    (regular_make_locations ⟨50, 60, 40, fun _ _ => false⟩ (0, 50) (0, 60)
        (0, 40) (10, 10, 40) 10 10 40 0 (-1) (-1) 0).length = 30 := by
  have h := regular_grid_tiling 4 4 5 2 2 2 (-1) (-1)
    (by decide) (by decide) (by decide) (by decide) (by decide) (by decide)
    (by decide) (by decide)
  exact ⟨h.1 3 1 (by decide) (by decide) (by decide) (by decide), h.2⟩

/-! ### ExtensionGrid potential scoring (grids.py, `compute_potential`) -/

/-- A 2D boolean coverage matrix with its extents (`True` = dead trace or
already covered by the surface). -/
structure Coverage where
  n0 : Nat
  n1 : Nat
  f : Nat → Nat → Bool

/-- One row of the ExtensionGrid candidate buffer:
`(orientation, i_start, x_start, h_start, i_stop, x_stop, h_stop)`
(grids.py, lines 535-541). -/
structure ExtLoc where
  orientation : Int
  i_start : Int
  x_start : Int
  h_start : Int
  i_stop : Int
  x_stop : Int
  h_stop : Int
deriving DecidableEq, Repr

/-- The prior computed by `compute_potential` (grids.py, lines 735-740):
for orientation 0, `max(sliced[:stride, :].sum(), sliced[:-stride, :].sum())`
— the leading `stride`-wide row band versus all rows but the trailing
`stride`; for orientation 1 the same on columns. -/
def code_prior (stride : Nat) (cov : Coverage) (loc : ExtLoc) : Nat :=
  let ilo := slice_lo loc.i_start cov.n0
  let ihi := slice_hi loc.i_stop cov.n0
  let xlo := slice_lo loc.x_start cov.n1
  let xhi := slice_hi loc.x_stop cov.n1
  if loc.orientation = 0 then
    max (rect_sum cov.f ilo (min (ilo + stride) ihi) xlo xhi)
        (rect_sum cov.f ilo (ihi - stride) xlo xhi)
  else
    max (rect_sum cov.f ilo ihi xlo (min (xlo + stride) xhi))
        (rect_sum cov.f ilo ihi xlo (xhi - stride))

/-- `coverage_matrix[i_start:i_stop, x_start:x_stop] = True`. -/
def cov_mark (cov : Coverage) (loc : ExtLoc) : Coverage :=
  ⟨cov.n0, cov.n1, fun i j =>
    if slice_lo loc.i_start cov.n0 ≤ i ∧ i < slice_hi loc.i_stop cov.n0 ∧
        slice_lo loc.x_start cov.n1 ≤ j ∧ j < slice_hi loc.x_stop cov.n1
    then true else cov.f i j⟩

/-- One iteration of the `compute_potential` loop (grids.py, lines 730-751):
if the clamped footprint does not have the full `shape[0] * shape[1]` area,
the location scores `-1`; else if the code's prior is below
`prior_threshold`, it scores `-1`; else it scores `area - covered`, marking
the footprint as covered when `update_coverage_matrix` is set. -/
def potential_step (shape0 shape1 stride : Nat) (prior_threshold : Int)
    (update : Bool) (cov : Coverage) (loc : ExtLoc) : Coverage × Int :=
  let ilo := slice_lo loc.i_start cov.n0
  let ihi := slice_hi loc.i_stop cov.n0
  let xlo := slice_lo loc.x_start cov.n1
  let xhi := slice_hi loc.x_stop cov.n1
  let area := shape0 * shape1
  if (ihi - ilo) * (xhi - xlo) = area then
    if (code_prior stride cov loc : Int) ≥ prior_threshold then
      let covered := rect_sum cov.f ilo ihi xlo xhi
      ((if update then cov_mark cov loc else cov), (area : Int) - covered)
    else (cov, -1)
  else (cov, -1)

/-- `compute_potential(locations, coverage_matrix, shape, stride,
prior_threshold, update_coverage_matrix)`: fold the per-location step over
the candidate list, threading the (possibly mutated) coverage matrix. -/
def compute_potential (shape0 shape1 stride : Nat) (prior_threshold : Int)
    (update : Bool) : Coverage → List ExtLoc → List Int
  | _, [] => []
  | cov, l :: ls =>
      let s := potential_step shape0 shape1 stride prior_threshold update cov l
      s.2 :: compute_potential shape0 shape1 stride prior_threshold update s.1 ls

/-- The coverage matrix state seen by the `n`-th location of the
`compute_potential` loop. -/
def coverage_state (shape0 shape1 stride : Nat) (prior_threshold : Int)
    (update : Bool) : Coverage → List ExtLoc → Nat → Coverage
  | cov, _, 0 => cov
  | cov, [], _ + 1 => cov
  | cov, l :: ls, n + 1 =>
      coverage_state shape0 shape1 stride prior_threshold update
        (potential_step shape0 shape1 stride prior_threshold update cov l).1
        ls n

/-- Helper for `dedup_first`: drop pairs whose location was already seen. -/
def dedup_first_aux (seen : List ExtLoc) :
    List (ExtLoc × Int) → List (ExtLoc × Int)
  | [] => []
  | q :: rest =>
      if q.1 ∈ seen then dedup_first_aux seen rest
      else q :: dedup_first_aux (q.1 :: seen) rest

/-- `np.unique(buffer, axis=0, return_index=True)` keeps, for every distinct
location, the potential of its first occurrence; the sorted output order is
irrelevant to membership, so the model preserves first-occurrence order. -/
def dedup_first (pairs : List (ExtLoc × Int)) : List (ExtLoc × Int) :=
  dedup_first_aux [] pairs

/-- The final selection of `ExtensionGrid._make_locations` (grids.py, lines
639-647): deduplicate the location rows, then keep only the pairs with
`potential > threshold`. -/
def select_locations (pairs : List (ExtLoc × Int)) (threshold : Int) :
    List (ExtLoc × Int) :=
  (dedup_first pairs).filter (fun q => q.2 > threshold)

/-- The spec's reading of the prior band: the two `stride`-wide bands of the
footprint at its leading and trailing edge along the moving axis (one of
which is "the band nearest the known surface").  Written from the spec's
words, to be compared against `code_prior`. -/
def spec_prior_band_counts (stride : Nat) (cov : Coverage) (loc : ExtLoc) :
    Nat × Nat :=
  let ilo := slice_lo loc.i_start cov.n0
  let ihi := slice_hi loc.i_stop cov.n0
  let xlo := slice_lo loc.x_start cov.n1
  let xhi := slice_hi loc.x_stop cov.n1
  if loc.orientation = 0 then
    (rect_sum cov.f ilo (min (ilo + stride) ihi) xlo xhi,
     rect_sum cov.f (ihi - stride) ihi xlo xhi)
  else
    (rect_sum cov.f ilo ihi xlo (min (xlo + stride) xhi),
     rect_sum cov.f ilo ihi (xhi - stride) xhi)

theorem compute_potential_length (shape0 shape1 stride : Nat)
    (prior_threshold : Int) (update : Bool) (cov : Coverage)
    (locs : List ExtLoc) :
    (compute_potential shape0 shape1 stride prior_threshold update cov
      locs).length = locs.length := by
  induction locs generalizing cov with
  | nil => rfl
  | cons l ls ih =>
      unfold compute_potential
      simp [ih]

theorem compute_potential_get (shape0 shape1 stride : Nat)
    (prior_threshold : Int) (update : Bool) (cov : Coverage)
    (locs : List ExtLoc) (n : Nat) (hn : n < locs.length) :
    (compute_potential shape0 shape1 stride prior_threshold update cov
        locs).get ⟨n, by
          rw [compute_potential_length]; exact hn⟩ =
      (potential_step shape0 shape1 stride prior_threshold update
        (coverage_state shape0 shape1 stride prior_threshold update cov locs n)
        (locs.get ⟨n, hn⟩)).2 := by
  induction locs generalizing cov n with
  | nil => exact absurd hn (by simp)
  | cons l ls ih =>
      cases n with
      | zero => rfl
      | succ m =>
          have hm : m < ls.length := by
            simpa using hn
          exact ih _ m hm

/-- C2 (counterexample): the claim fails as stated.  A 4×1 footprint over a
coverage matrix covered exactly at rows 1 and 2, with `stride = 1` and
`prior_threshold = 2`: both `stride`-wide edge bands of the footprint contain
0 covered cells (< 2), yet `compute_potential` scores the crop `4 - 2 = 2`,
not `-1` (the code's second band is `sliced[:-stride]`, not the trailing
`stride`-wide band), and with `threshold = 1` the crop survives the final
selection. -/
theorem compute_potential_prior_gate_cex :
    (spec_prior_band_counts 1
        ⟨4, 1, fun i _ => decide (i = 1 ∨ i = 2)⟩
        ⟨0, 0, 0, 0, 4, 1, 1⟩).1 < 2 ∧
    (spec_prior_band_counts 1
        ⟨4, 1, fun i _ => decide (i = 1 ∨ i = 2)⟩
        ⟨0, 0, 0, 0, 4, 1, 1⟩).2 < 2 ∧
    compute_potential 4 1 1 2 true
        ⟨4, 1, fun i _ => decide (i = 1 ∨ i = 2)⟩
        [⟨0, 0, 0, 0, 4, 1, 1⟩] = [2] ∧
    (⟨0, 0, 0, 0, 4, 1, 1⟩, (2 : Int)) ∈
      select_locations [(⟨0, 0, 0, 0, 4, 1, 1⟩, 2)] 1 := by
  refine ⟨by decide, by decide, ?_, by decide⟩
  decide

/-- C2 (amended): a candidate crop whose prior, *as the code measures it* —
`max` of the leading `stride`-wide band count and the count of all but the
trailing `stride` rows/columns, taken against the coverage state at that
point of the greedy loop — is strictly below `prior_threshold` is assigned
potential `-1`; and whenever the selection threshold is at least `-1` (the
default is 4), no pair with potential `-1` appears in the final selected
set. -/
theorem compute_potential_prior_gate :
    (∀ (shape0 shape1 stride : Nat) (prior_threshold : Int) (update : Bool)
        (cov : Coverage) (locs : List ExtLoc) (n : Nat)
        (hn : n < locs.length),
      (code_prior stride
          (coverage_state shape0 shape1 stride prior_threshold update cov
            locs n)
          (locs.get ⟨n, hn⟩) : Int) < prior_threshold →
      (compute_potential shape0 shape1 stride prior_threshold update cov
          locs).get ⟨n, by
            rw [compute_potential_length]; exact hn⟩ = -1) ∧
    (∀ (pairs : List (ExtLoc × Int)) (threshold : Int), -1 ≤ threshold →
      ∀ q ∈ select_locations pairs threshold, q.2 ≠ -1) := by
  constructor
  · intro shape0 shape1 stride prior_threshold update cov locs n hn hprior
    rw [compute_potential_get shape0 shape1 stride prior_threshold update
      cov locs n hn]
    unfold potential_step
    split
    next hge => exact absurd hge (not_le.mpr hprior)
    next hlt => simp
  · intro pairs threshold hth q hq
    have : q.2 > threshold := by
      have := List.of_mem_filter hq
      simpa using this
    omega

/-- Witness for the amended C2: an all-uncovered 2×1 footprint has prior 0,
below `prior_threshold = 1`, and scores `-1`; a pair with potential 3
selected at `threshold = 0` indeed has potential `≠ -1`. -/
theorem compute_potential_prior_gate_witness :
    (compute_potential 2 1 1 1 true ⟨2, 1, fun _ _ => false⟩
        [⟨0, 0, 0, 0, 2, 1, 1⟩]).get ⟨0, by decide⟩ = -1 ∧
    ((⟨0, 0, 0, 0, 2, 1, 1⟩ : ExtLoc), (3 : Int)).2 ≠ -1 :=
  ⟨compute_potential_prior_gate.1 2 1 1 1 true ⟨2, 1, fun _ _ => false⟩
      [⟨0, 0, 0, 0, 2, 1, 1⟩] 0 (by decide) (by decide),
    compute_potential_prior_gate.2 [(⟨0, 0, 0, 0, 2, 1, 1⟩, 3)] 0
      (by decide) _ (by decide)⟩

/-! ### Horizon subtraction (src/seismiqb/src/labels/horizon.py, `__sub__`) -/

/-- A cell of a full-cube matrix stored as a list of rows (out-of-range reads
default to the fill sentinel; all theorems stay within the stated extents). -/
def mat_cell (m : List (List Int)) (i j : Nat) : Int :=
  (m.getD i []).getD j FILL_VALUE

/-- `discrepancies.any()` of `Horizon.__sub__` (horizon.py, lines 249-251):
`other.presence_matrix` is `full_matrix > 0` (`binary_matrix` put on the full
cube), and discrepancies compare the two full matrices at those cells. -/
def sub_discrepancy (a b : List (List Int)) : Bool :=
  (a.zip b).any (fun rr =>
    (rr.1.zip rr.2).any (fun v => v.2 > 0 && v.1 ≠ v.2))

/-- `Horizon.__sub__` (horizon.py, lines 245-259): raise when the full
matrices differ at a cell where `other` is present; otherwise return `self`'s
full matrix with `other`'s present cells reset to `FILL_VALUE`. -/
def horizon_sub (a b : List (List Int)) : Except String (List (List Int)) :=
  if sub_discrepancy a b then
    .error "Horizons have different depths where present."
  else
    .ok ((a.zip b).map (fun rr =>
      (rr.1.zip rr.2).map (fun v => if v.2 > 0 then FILL_VALUE else v.1)))

/-- The spec's error condition: the two surfaces disagree at a cell where
*both* are present.  Written from the spec's words, to be compared with
`sub_discrepancy`. -/
def shared_present_disagreement (a b : List (List Int)) : Bool :=
  (a.zip b).any (fun rr =>
    (rr.1.zip rr.2).any (fun v => v.1 > 0 && v.2 > 0 && v.1 ≠ v.2))

/-- C8 (counterexample): two single-point surfaces present at different
cells — no cell has both present, so the claim says the subtraction must
succeed — yet `__sub__` raises, because it compares `self`'s fill value
against `other`'s depth wherever `other` is present. -/
theorem horizon_sub_cex :
    shared_present_disagreement [[5, FILL_VALUE]] [[FILL_VALUE, 7]] = false ∧
    horizon_sub [[5, FILL_VALUE]] [[FILL_VALUE, 7]] =
      .error "Horizons have different depths where present." :=
  ⟨by decide, rfl⟩

/-- C8 (amended): subtracting `other` from `self` raises exactly when `other`
is present (positive depth) at some cell where `self`'s full matrix differs —
that is, where `self` is absent or both are present with different depths;
when no such cell exists the subtraction succeeds and the result equals
`self` with `other`'s present cells reset to `FILL_VALUE`. -/
theorem horizon_sub_amended (a b : List (List Int)) (n m : Nat)
    (han : a.length = n) (hbn : b.length = n)
    (ham : ∀ r ∈ a, r.length = m) (hbm : ∀ r ∈ b, r.length = m) :
    ((∃ e, horizon_sub a b = .error e) ↔
      ∃ i < n, ∃ j < m,
        mat_cell b i j > 0 ∧ mat_cell a i j ≠ mat_cell b i j) ∧
    (∀ res, horizon_sub a b = .ok res →
      ∀ i < n, ∀ j < m,
        mat_cell res i j =
          if mat_cell b i j > 0 then FILL_VALUE else mat_cell a i j) := by
  have hzlen : (a.zip b).length = n := by
    rw [List.length_zip]
    omega
  have hdisc : sub_discrepancy a b = true ↔
      ∃ i < n, ∃ j < m,
        mat_cell b i j > 0 ∧ mat_cell a i j ≠ mat_cell b i j := by
    unfold sub_discrepancy
    rw [List.any_eq_true]
    constructor
    · rintro ⟨rr, hrr, hin⟩
      rw [List.mem_iff_getElem] at hrr
      obtain ⟨i, hi, hrr⟩ := hrr
      rw [List.getElem_zip] at hrr
      rw [List.any_eq_true] at hin
      obtain ⟨v, hv, hp⟩ := hin
      rw [List.mem_iff_getElem] at hv
      obtain ⟨j, hj, hv⟩ := hv
      subst hrr
      simp only [List.getElem_zip] at hv hj
      have hia : i < a.length := by omega
      have hib : i < b.length := by omega
      have hja : j < a[i].length := by
        rw [List.length_zip] at hj
        omega
      have hjb : j < b[i].length := by
        rw [List.length_zip] at hj
        omega
      refine ⟨i, by omega, j, ?_, ?_⟩
      · have := hbm b[i] (List.getElem_mem hib)
        omega
      · subst hv
        unfold mat_cell
        rw [List.getD_eq_getElem a [] hia, List.getD_eq_getElem b [] hib,
          List.getD_eq_getElem _ _ hja, List.getD_eq_getElem _ _ hjb]
        simp only [Bool.and_eq_true, decide_eq_true_eq, bne_iff_ne,
          ne_eq] at hp
        simp only [gt_iff_lt, ne_eq]
        tauto
    · rintro ⟨i, hi, j, hj, hpos, hne⟩
      have hia : i < a.length := by omega
      have hib : i < b.length := by omega
      have hja : j < a[i].length := by
        rw [ham a[i] (List.getElem_mem hia)]
        omega
      have hjb : j < b[i].length := by
        rw [hbm b[i] (List.getElem_mem hib)]
        omega
      refine ⟨(a[i], b[i]), ?_, ?_⟩
      · rw [List.mem_iff_getElem]
        exact ⟨i, by omega, by rw [List.getElem_zip]⟩
      · rw [List.any_eq_true]
        refine ⟨(a[i][j], b[i][j]), ?_, ?_⟩
        · rw [List.mem_iff_getElem]
          refine ⟨j, ?_, ?_⟩
          · simp only [List.length_zip]
            omega
          · simp [List.getElem_zip]
        · unfold mat_cell at hpos hne
          rw [List.getD_eq_getElem b [] hib,
            List.getD_eq_getElem _ _ hjb] at hpos
          rw [List.getD_eq_getElem a [] hia, List.getD_eq_getElem b [] hib,
            List.getD_eq_getElem _ _ hja, List.getD_eq_getElem _ _ hjb] at hne
          simp only [Bool.and_eq_true, decide_eq_true_eq, bne_iff_ne, ne_eq]
          exact ⟨hpos, hne⟩
  constructor
  · constructor
    · rintro ⟨e, he⟩
      unfold horizon_sub at he
      split at he
      · exact hdisc.mp (by assumption)
      · cases he
    · intro hex
      refine ⟨"Horizons have different depths where present.", ?_⟩
      unfold horizon_sub
      rw [if_pos (hdisc.mpr hex)]
  · intro res hres i hi j hj
    unfold horizon_sub at hres
    split at hres
    · cases hres
    · injection hres with hres
      subst hres
      have hia : i < a.length := by omega
      have hib : i < b.length := by omega
      have hja : j < a[i].length := by
        rw [ham a[i] (List.getElem_mem hia)]
        omega
      have hjb : j < b[i].length := by
        rw [hbm b[i] (List.getElem_mem hib)]
        omega
      have hjz : j < (a[i].zip b[i]).length := by
        rw [List.length_zip]
        omega
      have hiz : i < ((a.zip b).map (fun rr =>
          (rr.1.zip rr.2).map (fun v =>
            if v.2 > 0 then FILL_VALUE else v.1))).length := by
        rw [List.length_map]
        omega
      unfold mat_cell
      rw [List.getD_eq_getElem _ [] hiz]
      rw [List.getElem_map]
      rw [List.getElem_zip]
      have hjm : j < ((a[i].zip b[i]).map (fun v =>
          if v.2 > 0 then FILL_VALUE else v.1)).length := by
        rw [List.length_map]
        exact hjz
      rw [List.getD_eq_getElem _ _ hjm, List.getElem_map, List.getElem_zip]
      rw [List.getD_eq_getElem a [] hia, List.getD_eq_getElem b [] hib,
        List.getD_eq_getElem _ _ hja, List.getD_eq_getElem _ _ hjb]

/-- Witness for the amended C8 on concrete 1×2 matrices: the forward
direction produces the error cell, and the success characterization applied
to subtracting a point from itself. -/
theorem horizon_sub_amended_witness :
    (∃ i < 1, ∃ j < 2,
      mat_cell [[FILL_VALUE, 7]] i j > 0 ∧
      mat_cell [[5, FILL_VALUE]] i j ≠ mat_cell [[FILL_VALUE, 7]] i j) ∧
    (∀ res, horizon_sub [[5, 7]] [[FILL_VALUE, 7]] = .ok res →
      ∀ i < 1, ∀ j < 2,
        mat_cell res i j =
          if mat_cell [[FILL_VALUE, 7]] i j > 0 then FILL_VALUE
          else mat_cell [[5, 7]] i j) :=
  ⟨(horizon_sub_amended [[5, FILL_VALUE]] [[FILL_VALUE, 7]] 1 2
      (by decide) (by decide) (by decide) (by decide)).1.mp
      ⟨"Horizons have different depths where present.", rfl⟩,
    (horizon_sub_amended [[5, 7]] [[FILL_VALUE, 7]] 1 2
      (by decide) (by decide) (by decide) (by decide)).2⟩

/-! ### Horizon lazy storage (src/seismiqb/src/labels/horizon.py) -/

/-- Minimum of a list of integers (`np.min` of a nonempty column). -/
def list_min (l : List Int) : Int :=
  match l with
  | [] => 0
  | x :: xs => xs.foldl min x

/-- Maximum of a list of integers (`np.max` of a nonempty column). -/
def list_max (l : List Int) : Int :=
  match l with
  | [] => 0
  | x :: xs => xs.foldl max x

/-- The storage-relevant state of a `Horizon` instance: the two lazy storages
and the bounding-box fields, all `None` until populated (horizon.py, lines
97-107). -/
structure HorizonState where
  _points : Option (List Point)
  _matrix : Option (List (List Int))
  i_min : Option Int
  x_min : Option Int
  i_length : Option Int
  x_length : Option Int

/-- `Horizon.reset_storage('matrix')` (horizon.py, lines 206-228): drop the
matrix storage; when the point storage is non-empty, recompute the bounding
box; for an empty point set the bounding-box fields are left untouched
(`None` after construction). -/
def horizon_reset_matrix (h : HorizonState) : HorizonState :=
  let pts := h._points.getD []
  if pts.length > 0 then
    let imin := list_min (pts.map (fun p => p.1))
    let imax := list_max (pts.map (fun p => p.1))
    let xmin := list_min (pts.map (fun p => p.2.1))
    let xmax := list_max (pts.map (fun p => p.2.1))
    { h with _matrix := none, i_min := some imin, x_min := some xmin,
             i_length := some (imax - imin + 1),
             x_length := some (xmax - xmin + 1) }
  else
    { h with _matrix := none }

/-- `Horizon.from_points(points, verify=True)` on a cube of shape
`(n0, n1, n2)` (horizon.py, lines 302-333): drop points outside the cube
range, store the rest as the point storage, and `reset_storage('matrix')`. -/
def from_points_init (n0 n1 n2 : Nat) (pts : List Point) : HorizonState :=
  let kept := pts.filter (fun p =>
    decide (0 ≤ p.1 ∧ 0 ≤ p.2.1 ∧ 0 ≤ p.2.2 ∧
      p.1 < (n0 : Int) ∧ p.2.1 < (n1 : Int) ∧ p.2.2 < (n2 : Int)))
  horizon_reset_matrix
    ⟨some kept, none, none, none, none, none⟩

/-- The `Horizon.matrix` lazy property (horizon.py, lines 170-179): return
the cached matrix, or derive it from points via
`points_to_matrix(points, i_min, x_min, i_length, x_length)`.  When the
bounding-box fields are unset (`None`), `np.full((None, None), ...)` raises a
`TypeError`. -/
def matrix_prop (h : HorizonState) : Except String (List (List Int)) :=
  match h._matrix with
  | some m => .ok m
  | none =>
      match h._points with
      | some pts =>
          match h.i_min, h.x_min, h.i_length, h.x_length with
          | some im, some xm, some il, some xl =>
              .ok ((List.range il.toNat).map (fun (i : Nat) =>
                (List.range xl.toNat).map (fun (j : Nat) =>
                  points_to_matrix pts im xm il.toNat xl.toNat i j)))
          | _, _, _, _ =>
              .error "TypeError: 'NoneType' object cannot be interpreted as an integer"
      | none => .error "no storage set"

/-- The `Horizon.points` lazy property (horizon.py, lines 145-154): return
the cached points, or derive them from the matrix and shift by
`(i_min, x_min, 0)`. -/
def points_prop (h : HorizonState) : Except String (List Point) :=
  match h._points with
  | some pts => .ok pts
  | none =>
      match h._matrix with
      | some m =>
          match h.i_min, h.x_min with
          | some im, some xm =>
              .ok (shift_points
                (matrix_to_points (fun i j => mat_cell m i.toNat j.toNat)
                  m.length ((m.getD 0 []).length)) im xm)
          | _, _ =>
              .error "TypeError: 'NoneType' object cannot be interpreted as an integer"
      | none => .error "no storage set"

/-- C10 (counterexample): on a surface constructed from a length-0 point
array, the `points` property does return the empty array, but the `matrix`
property raises: the bounding-box fields were never set, and
`np.full((None, None), ...)` is a `TypeError` — contradicting the claim that
both accesses return an empty structure without raising. -/
theorem empty_horizon_access_cex :
    points_prop (from_points_init 5 5 5 []) = .ok [] ∧
    matrix_prop (from_points_init 5 5 5 []) =
      .error "TypeError: 'NoneType' object cannot be interpreted as an integer" :=
  ⟨rfl, rfl⟩

/-- C10 (amended): for a surface constructed from a length-0 point array
over any cube shape, accessing `points` yields the empty length-0 array
without an exception, while accessing `matrix` raises a `TypeError` (the
empty point set leaves `i_length`/`x_length` unset and `np.full((None,
None), ...)` fails) — only the points side of the claim holds. -/
theorem empty_horizon_access (n0 n1 n2 : Nat) :
    points_prop (from_points_init n0 n1 n2 []) = .ok [] ∧
    matrix_prop (from_points_init n0 n1 n2 []) =
      .error "TypeError: 'NoneType' object cannot be interpreted as an integer" :=
  ⟨rfl, rfl⟩

/-! ### Surface mutation and the attribute cache
(src/seismiqb/labels/horizon_processing.py and
src/seismiqb/src/labels/horizon.py) -/

/-- A surface state carrying the attribute cache alongside the dual storage:
the point storage, whether the dense storage is materialized, and the names
of currently cached derived attributes. -/
structure CachedSurface where
  points : List Point
  matrix_valid : Bool
  cache : List String
deriving DecidableEq, Repr

/-- Modelled from the spec: `CacheMixin.reset_cache` (the mixin itself is not
under src/) invalidates **all** cached attribute entries of the surface. -/
def reset_cache (s : CachedSurface) : CachedSurface :=
  { s with cache := [] }

/-- `reset_storage('matrix')` as seen from this state: drop the dense
storage (bounding-box recomputation is modelled in `horizon_reset_matrix`). -/
def surface_reset_matrix (s : CachedSurface) : CachedSurface :=
  { s with matrix_valid := false }

/-- `Horizon.apply_to_points(function)` (src/seismiqb/src/labels/horizon.py,
lines 530-543): replace the point storage with `function(points)`, then
`reset_storage('matrix')` and `reset_cache()`. -/
def apply_to_points (f : List Point → List Point) (s : CachedSurface) :
    CachedSurface :=
  reset_cache (surface_reset_matrix { s with points := f s.points })

/-- `Horizon.filter_points(filtering_matrix)` of the older Horizon
(src/seismiqb/src/labels/horizon.py, lines 546-556): drop points on `1` cells
of the mask, routed through `apply_to_points`. -/
def horizon_filter_points (mask : Int → Int → Bool) (s : CachedSurface) :
    CachedSurface :=
  apply_to_points (fun pts => pts.filter (fun p => mask p.1 p.2.1 = false)) s

/-- `ProcessingMixin.filter_points(filtering_matrix)` with `margin = 0`
(src/seismiqb/labels/horizon_processing.py, lines 20-33): assigns
`self.points` directly and calls `reset_storage('matrix')` — it does *not*
route through `apply_to_points` and never calls `reset_cache`. -/
def processing_filter_points (mask : Int → Int → Bool) (s : CachedSurface) :
    CachedSurface :=
  surface_reset_matrix
    { s with points := s.points.filter (fun p => mask p.1 p.2.1 = false) }

/-- C3 (code evaluated at the failing input): a surface holding a cached
derived attribute, filtered via `ProcessingMixin.filter_points`, keeps the
stale cache entry (while the matrix storage is reset and the point is
removed); the sanctioned `apply_to_points` route — used by the older
`Horizon.filter_points` — clears the cache as the claim requires. -/
theorem filter_points_cache_bug :
    processing_filter_points (fun i x => decide (i = 0 ∧ x = 0))
        ⟨[(0, 0, 5), (1, 1, 7)], true, ["amplitudes"]⟩ =
      ⟨[(1, 1, 7)], false, ["amplitudes"]⟩ ∧
    horizon_filter_points (fun i x => decide (i = 0 ∧ x = 0))
        ⟨[(0, 0, 5), (1, 1, 7)], true, ["amplitudes"]⟩ =
      ⟨[(1, 1, 7)], false, []⟩ :=
  ⟨rfl, rfl⟩

/-! ### LocationsPotentialContainer (grids.py, lines 755-822) -/

/-- The `(locations, potential)` memory of a `LocationsPotentialContainer`,
and equally the mutable location/potential pair of a grid. -/
structure LocPotential where
  locations : List CropLoc
  potential : List Int
deriving DecidableEq, Repr

/-- `LocationsPotentialContainer.update_grid(grid)` (grids.py, lines
781-822).  `np.in1d(grid_locations, self.locations)` marks grid rows whose
location occurs anywhere in the container, `np.in1d(grid.potential,
self.potential)` marks rows whose potential *value* occurs anywhere in the
container's potential column; rows marked by both are removed from the grid.
The surviving pairs replace any container rows with the same location and are
appended; if nothing survives, the container is untouched and the grid
becomes empty. -/
def update_grid (c : LocPotential) (g : LocPotential) :
    LocPotential × LocPotential :=
  let pairs := g.locations.zip g.potential
  let newPairs := pairs.filter (fun q =>
    !(decide (q.1 ∈ c.locations) && decide (q.2 ∈ c.potential)))
  let new_locations := newPairs.map (fun q => q.1)
  let new_potential := newPairs.map (fun q => q.2)
  if newPairs.length > 0 then
    let keep := (c.locations.zip c.potential).filter (fun r =>
      decide (r.1 ∉ new_locations))
    (⟨keep.map (fun r => r.1) ++ new_locations,
      keep.map (fun r => r.2) ++ new_potential⟩,
     ⟨new_locations, new_potential⟩)
  else
    (c, ⟨[], []⟩)

/-- C6 (code evaluated at the failing input): the container stores the pairs
`(L, 5)` and `(M, 7)`; the grid proposes `(L, 7)` — a pair *not* stored in
the container.  Because the membership tests are independent (`L` occurs as a
location, `7` occurs as a potential of the unrelated `M`), the pair is
dropped from the grid and the container keeps the stale potential `5` for
`L`, contradicting the exact-pair removal and last-write-wins contract. -/
theorem update_grid_pair_bug :
    ((⟨-1, -1, 0, 0, 0, 0, 2, 2, 2⟩ : CropLoc), (7 : Int)) ∉
      ([(⟨-1, -1, 0, 0, 0, 0, 2, 2, 2⟩ : CropLoc),
        ⟨-1, -1, 0, 1, 0, 0, 3, 2, 2⟩].zip [(5 : Int), 7]) ∧
    (update_grid ⟨[⟨-1, -1, 0, 0, 0, 0, 2, 2, 2⟩,
        ⟨-1, -1, 0, 1, 0, 0, 3, 2, 2⟩], [5, 7]⟩
      ⟨[⟨-1, -1, 0, 0, 0, 0, 2, 2, 2⟩], [7]⟩).2 = ⟨[], []⟩ ∧
    (update_grid ⟨[⟨-1, -1, 0, 0, 0, 0, 2, 2, 2⟩,
        ⟨-1, -1, 0, 1, 0, 0, 3, 2, 2⟩], [5, 7]⟩
      ⟨[⟨-1, -1, 0, 0, 0, 0, 2, 2, 2⟩], [7]⟩).1 =
      ⟨[⟨-1, -1, 0, 0, 0, 0, 2, 2, 2⟩,
        ⟨-1, -1, 0, 1, 0, 0, 3, 2, 2⟩], [5, 7]⟩ := by
  refine ⟨by decide, rfl, rfl⟩

/-! ### Chunked fault labeling (src/seismiqb/src/labels/fault.py,
`Fault.from_mask`) -/

/-- A voxel coordinate `(axis0, axis1, depth)`. -/
abbrev Vox := Nat × Nat × Nat

/-- 26-connectivity: the `np.ones((3, 3, 3))` structuring element of
`measurements.label` connects voxels differing by at most 1 on every axis. -/
def adj26 (a b : Vox) : Bool :=
  decide (a ≠ b) && decide (a.1 ≤ b.1 + 1) && decide (b.1 ≤ a.1 + 1) &&
  decide (a.2.1 ≤ b.2.1 + 1) && decide (b.2.1 ≤ a.2.1 + 1) &&
  decide (a.2.2 ≤ b.2.2 + 1) && decide (b.2.2 ≤ a.2.2 + 1)

/-- The active voxels of a chunk in `np.where` raster order. -/
def raster_voxels (rows n1 n2 : Nat) (mask : Nat → Nat → Nat → Bool) :
    List Vox :=
  (List.range rows).flatMap (fun (i : Nat) =>
    (List.range n1).flatMap (fun (j : Nat) =>
      (List.range n2).filterMap (fun (k : Nat) =>
        if mask i j k then some (i, j, k) else none)))

/-- One round of connected-component label propagation: every voxel takes the
minimum provisional label among itself and its 26-neighbours (`lab` is
index-aligned with `vox`). -/
def relax_step (vox : List Vox) (lab : List Nat) : List Nat :=
  (vox.zip lab).map (fun vl =>
    ((vox.zip lab).filter (fun ul => adj26 vl.1 ul.1)).foldl
      (fun m ul => min m ul.2) vl.2)

/-- Iterate label propagation; `vox.length` rounds reach the fixed point. -/
def cc_fix (vox : List Vox) : Nat → List Nat → List Nat
  | 0, lab => lab
  | n + 1, lab => cc_fix vox n (relax_step vox lab)

/-- Distinct values of a list in first-occurrence order. -/
def firsts (raw : List Nat) : List Nat :=
  raw.foldl (fun acc r => if r ∈ acc then acc else acc ++ [r]) []

/-- Renumber provisional component ids to `1..n` in raster order of first
occurrence, matching `scipy.ndimage.measurements.label` numbering. -/
def renumber (raw : List Nat) : List Nat :=
  raw.map (fun r => (firsts raw).indexOf r + 1)

/-- `measurements.label(item, structure=np.ones((3, 3, 3)))` on one chunk:
the labeled voxels in raster order plus the number of components. -/
def scipy_label (rows n1 n2 : Nat) (mask : Nat → Nat → Nat → Bool) :
    List (Vox × Nat) × Nat :=
  let vox := raster_voxels rows n1 n2 mask
  let raw := cc_fix vox vox.length (List.range vox.length)
  (vox.zip (renumber raw), (firsts raw).length)

/-- A row of the `labels`/`new_labels` arrays of `Fault.from_mask`:
`(axis0, axis1, depth, label)`. -/
structure LRow where
  i : Nat
  j : Nat
  k : Nat
  lab : Nat
deriving DecidableEq, Repr

/-- `(a != b).any()` under NumPy broadcasting: element-wise for equal
lengths, broadcast when one side has length 1, and a broadcast `ValueError`
(`none`) otherwise. -/
def neq_any (a b : List Nat) : Option Bool :=
  if a.length = b.length then
    some ((a.zip b).any (fun p => decide (p.1 ≠ p.2)))
  else if a.length = 1 then
    some (b.any (fun x => decide (x ≠ a.headD 0)))
  else if b.length = 1 then
    some (a.any (fun x => decide (x ≠ b.headD 0)))
  else none

/-- Python dict insertion: overwrite the value of an existing key in place,
else append (dict comprehension semantics). -/
def dict_insert (acc : List (Nat × Nat)) (k v : Nat) : List (Nat × Nat) :=
  if acc.any (fun e => decide (e.1 = k)) then
    acc.map (fun e => if e.1 = k then (k, v) else e)
  else acc ++ [(k, v)]

/-- `{k: v for k, v in zip(xs, ys) if k != v}`. -/
def mk_transform (ps : List (Nat × Nat)) : List (Nat × Nat) :=
  ps.foldl (fun acc p =>
    if p.1 = p.2 then acc else dict_insert acc p.1 p.2) []

/-- `for k, v in transform.items(): rows[rows[:, 3] == k, 3] = v` — the
rewrites are applied sequentially in dict insertion order. -/
def apply_transform (t : List (Nat × Nat)) (rows : List LRow) : List LRow :=
  t.foldl (fun rs kv =>
    rs.map (fun r => if r.lab = kv.1 then { r with lab := kv.2 } else r)) rows

/-- The cross-chunk label-unification `while` loop of `Fault.from_mask`
(fault.py, lines 443-457), bounded by `fuel` (the source loop has no bound;
`none` reports either fuel exhaustion or a NumPy broadcast error in the loop
condition).  Arguments: the new chunk's labeled rows (local coordinates), the
finalized rows of previous chunks (absolute coordinates), the labels touching
the shared band from the new chunk, and `prev_overlapped_labels`. -/
def reconcile (start overlap : Nat) :
    Nat → List LRow → List LRow → List Nat → List Nat →
    Option (List LRow × List LRow)
  | fuel, newLabels, labels, overlapped, prev =>
    match neq_any overlapped prev with
    | none => none
    | some false => some (newLabels, labels)
    | some true =>
        match fuel with
        | 0 => none
        | f + 1 =>
            let t1 := mk_transform (overlapped.zip prev)
            let newLabels' := apply_transform t1 newLabels
            let overlapped' :=
              (newLabels'.filter (fun r => decide (r.i < overlap))).map
                (fun r => r.lab)
            let t2 := mk_transform (prev.zip overlapped')
            let labels' := apply_transform t2 labels
            let prev' := (labels'.filter (fun r =>
              decide ((r.i : Int) ≥ (start : Int) - overlap + 1))).map
                (fun r => r.lab)
            reconcile start overlap f newLabels' labels' overlapped' prev'

/-- The running state of the `Fault.from_mask` chunk loop. -/
structure MaskLoopState where
  labels : List LRow
  n_objects : Nat
  prev : Option (List Nat)

/-- One iteration of the `Fault.from_mask` chunk loop (fault.py, lines
437-465): label the chunk, offset by the running counter, reconcile against
the previous chunk's overlap band, drop the overlap rows of non-first
chunks, shift to absolute coordinates, append, and record the new band. -/
def process_chunk (n1 n2 overlap fuel : Nat)
    (mask : Nat → Nat → Nat → Bool) (state : MaskLoopState)
    (start rows : Nat) : Option MaskLoopState := do
  let chunk := scipy_label rows n1 n2 (fun li j k => mask (start + li) j k)
  let newLabels0 : List LRow := chunk.1.map (fun vl =>
    ⟨vl.1.1, vl.1.2.1, vl.1.2.2, vl.2 + state.n_objects⟩)
  let new_objects := chunk.2
  let overlapped :=
    (newLabels0.filter (fun r => decide (r.i < overlap))).map (fun r => r.lab)
  let step ← match state.prev with
    | none => some (newLabels0, state.labels)
    | some pl =>
        reconcile start overlap fuel newLabels0 state.labels overlapped pl
  let newLabels1 := if start ≠ 0 then
      step.1.filter (fun r => decide (r.i ≥ overlap))
    else step.1
  let shifted := newLabels1.map (fun r => { r with i := r.i + start })
  let labels2 := step.2 ++ shifted
  let prev2 := (labels2.filter (fun r =>
    decide ((r.i : Int) ≥ (start : Int) + rows - overlap))).map (fun r => r.lab)
  some ⟨labels2, state.n_objects + new_objects, some prev2⟩

/-- Group rows with equal labels after sorting by label
(modelled from the spec: the `split_array` helper, not under src/, groups the
label-sorted rows into one point set per final label). -/
def group_consec (rows : List LRow) : List (List LRow) :=
  rows.foldr (fun r acc =>
    match acc with
    | [] => [[r]]
    | g :: gs =>
        if (g.headD r).lab = r.lab then (r :: g) :: gs else [r] :: g :: gs) []

/-- `np.ptp`: max minus min. -/
def nat_ptp (l : List Nat) : Nat :=
  (match l with | [] => 0 | x :: xs => xs.foldl max x) -
  (match l with | [] => 0 | x :: xs => xs.foldl min x)

/-- The squared `faults_sizes` metric
(src/seismiqb/src/labels/fault_postprocessing.py, lines 145-162):
`i_extent² + x_extent²`; the source takes the square root, a monotone map, so
sorting by the squared value orders components identically. -/
def fault_size_sq (g : List LRow) : Nat :=
  nat_ptp (g.map (fun r => r.i)) ^ 2 + nat_ptp (g.map (fun r => r.j)) ^ 2

/-- Stable insertion into a sorted list. -/
def insert_by {α : Type} (le : α → α → Bool) (x : α) : List α → List α
  | [] => [x]
  | y :: ys => if le x y then x :: y :: ys else y :: insert_by le x ys

/-- Stable sort (models the label `argsort` and Python's stable
`sorted(..., reverse=True)`). -/
def sort_by {α : Type} (le : α → α → Bool) (l : List α) : List α :=
  l.foldr (insert_by le) []

/-- `Fault.from_mask(array, chunk_size, overlap, fmt='mask')` (fault.py,
lines 379-476) over a `(n0, n1, n2)` mask: chunk along axis0 with step
`chunk_size - overlap` (`overlap` forced to 0 when `chunk_size == n0`; a
non-positive step is an error), run the chunk loop, then sort rows by final
label, group, and order the components by descending size. -/
def from_mask_chunked (n0 n1 n2 : Nat) (mask : Nat → Nat → Nat → Bool)
    (chunk_size0 overlap0 fuel : Nat) : Option (List (List Vox)) := do
  let chunk_size := chunk_size0
  let overlap := if chunk_size = n0 then 0 else overlap0
  if chunk_size ≤ overlap then none else
  let step := chunk_size - overlap
  let starts := (List.range ((n0 + step - 1) / step)).map (fun t => t * step)
  let final ← starts.foldlM (fun st start =>
    process_chunk n1 n2 overlap fuel mask st start (min chunk_size (n0 - start)))
    (⟨[], 0, none⟩ : MaskLoopState)
  let sorted := sort_by (fun a b => decide (a.lab ≤ b.lab)) final.labels
  let groups := group_consec sorted
  let bySize := sort_by (fun a b =>
    decide (fault_size_sq b ≤ fault_size_sq a)) groups
  some (bySize.map (fun g => g.map (fun r => (r.i, r.j, r.k))))

/-- Two seed voxels more than 1 voxel apart on an 8×2×2 volume. -/
def mask_two_separated : Nat → Nat → Nat → Bool := fun i j k =>
  decide ((i, j, k) = ((1, 0, 0) : Vox)) ||
  decide ((i, j, k) = ((4, 1, 1) : Vox))

/-- A single-voxel seed at `(0,0,0)` plus a 26-connected two-voxel seed
`{(3,1,0), (4,1,1)}` that straddles the boundary of the 2-chunk splits of an
8×2×2 volume. -/
def mask_straddling : Nat → Nat → Nat → Bool := fun i j k =>
  decide ((i, j, k) = ((0, 0, 0) : Vox)) ||
  decide ((i, j, k) = ((3, 1, 0) : Vox)) ||
  decide ((i, j, k) = ((4, 1, 1) : Vox))

/-- C4: single-pass labeling of two seeds more than 1 voxel apart returns
exactly the two seed components; and for every `(chunk_size, overlap)` with
`chunk_size ≤ n0` that splits the 8×2×2 volume into exactly 2 chunks with
`overlap ≥ 2` (the straddling component's extent along the chunk axis) —
exhaustively `(6,2)`, `(7,2)` and `(7,3)` — the chunked run returns exactly
one component per connected seed, identical to the single-pass answer. -/
theorem from_mask_components :
    from_mask_chunked 8 2 2 mask_two_separated 8 1 20 =
      some [[(1, 0, 0)], [(4, 1, 1)]] ∧
    ∀ cs ov : Nat, (cs, ov) ∈ [(6, 2), (7, 2), (7, 3)] →
      from_mask_chunked 8 2 2 mask_straddling cs ov 20 =
        some [[(3, 1, 0), (4, 1, 1)], [(0, 0, 0)]] := by
  refine ⟨by decide, ?_⟩
  intro cs ov h
  simp only [List.mem_cons, List.not_mem_nil, or_false, Prod.mk.injEq] at h
  rcases h with ⟨rfl, rfl⟩ | ⟨rfl, rfl⟩ | ⟨rfl, rfl⟩ <;> decide

/-- Witness for C4 at the 2-chunk split `chunk_size = 6`, `overlap = 2`. -/
theorem from_mask_components_witness :
    from_mask_chunked 8 2 2 mask_straddling 6 2 20 =
      some [[(3, 1, 0), (4, 1, 1)], [(0, 0, 0)]] :=
  from_mask_components.2 6 2 (by decide)

/-- Witness for C7 on a concrete grid over a 5×4×3 volume with a 2×2×2 crop. -/
theorem regular_grid_clipping_witness :
    (2 : Nat) ≤ 5 ∧
    ∀ loc ∈ regular_make_locations ⟨5, 4, 3, fun _ _ => false⟩
        (0, 5) (0, 4) (0, 3) (2, 2, 2) 2 2 2 0 (-1) (-1) 0,
      (0 ≤ loc.i_start ∧ loc.i_stop ≤ 5) ∧
      (0 ≤ loc.x_start ∧ loc.x_stop ≤ 4) ∧
      (0 ≤ loc.h_start ∧ loc.h_stop ≤ 3) :=
  ⟨by decide,
    regular_grid_clipping ⟨5, 4, 3, fun _ _ => false⟩ (0, 5) (0, 4) (0, 3)
      (2, 2, 2) 2 2 2 0 (-1) (-1) 0 (by decide) (by decide) (by decide)⟩

end Seismiqb
